import Mathlib

/-!
Shallow embedding of the two algorithmic cores of the serospace/editor
repository, and theorems settling the frozen claims about them.

Sources embedded here:
* the freehand raster photo editor (PhotoEditor in
  src/components/LinkPreviewDialog.tsx): draw-action history with
  undo/redo, mosaic/rectangle/circle/pen rendering, crop, image load;
* the image-merge placement algorithm (mergeImages in
  src/CustomImageExtension.tsx): aspect-ratio width computation and the
  structural document mutation.

Conventions of the embedding:
* JavaScript numbers used as pixel coordinates are embedded as integers
  (the claims under study do not depend on fractional coordinates);
  aspect ratios are embedded as rationals, with JavaScript Math.round
  embedded as Mathlib round (both send x to the floor of x + 1/2).
* CSS color strings are embedded directly as RGB triples; the mosaic
  renderer builds its fill color from computed RGB channels exactly as
  the source does.
* Canvas bitmaps are dimensioned grids; getImageData reads outside the
  canvas yield transparent black (0,0,0), as in the HTML canvas
  specification, and fillRect writes are clipped to the canvas.
* The antialiased stroke rasterization that the browser performs for
  strokeRect / arc / lineTo has no bit-level specification in the
  source; it is embedded as a deterministic integer band test.  No claim
  under study depends on the exact stroked pixel set, only on the mosaic
  renderer (embedded exactly) and on determinism.
* Asynchronous image decoding is embedded by passing the decoded bitmap
  to the handler directly; the React state updates of one handler are
  collapsed into one state-to-state function.
-/

namespace Raster

/-- RGB color triple as read from canvas image data, one channel in 0..255. -/
structure Pix where
  r : ℕ
  g : ℕ
  b : ℕ
  deriving DecidableEq, Repr

/-- A 2D coordinate in surface-local pixel space (interface Point in the source). -/
structure Point where
  x : ℤ
  y : ℤ
  deriving DecidableEq, Repr

/-- Tool mode (type Tool in the source). -/
inductive Tool where
  | none
  | crop
  | mosaic
  | rectangle
  | circle
  | pen
  | eraser
  deriving DecidableEq, Repr

/-- Variant tag of a DrawAction. -/
inductive DrawType where
  | mosaic
  | rectangle
  | circle
  | pen
  deriving DecidableEq, Repr

/-- One recorded drawing operation (interface DrawAction in the source).
The color is a CSS color string in the source, embedded as RGB. -/
structure DrawAction where
  type : DrawType
  points : List Point
  color : Pix
  lineWidth : Option ℕ
  deriving DecidableEq, Repr

/-- A raster bitmap: dimensions plus pixel contents.  Both the base
image (HTMLImageElement) and the canvas surface are embedded this way;
only values of pix at coordinates inside the w times h rectangle are
meaningful, and all reads go through readPix which clips. -/
structure Bitmap where
  w : ℕ
  h : ℕ
  pix : ℤ → ℤ → Pix

/-- Read a pixel the way getImageData does: coordinates outside the
canvas bitmap read as transparent black. -/
def readPix (bm : Bitmap) (x y : ℤ) : Pix :=
  if 0 ≤ x ∧ x < (bm.w : ℤ) ∧ 0 ≤ y ∧ y < (bm.h : ℤ) then bm.pix x y else ⟨0, 0, 0⟩

/-- Whole React component state of PhotoEditor that the embedded
handlers touch. -/
structure EditorState where
  image : Option Bitmap
  tool : Tool
  color : Pix
  lineWidth : ℕ
  isDrawing : Bool
  startPoint : Option Point
  currentPath : List Point
  history : List DrawAction
  historyStep : ℤ
  canvasW : ℕ
  canvasH : ℕ

/-- Initial component state: useState initializers of PhotoEditor
(tool none, color red, lineWidth 3, empty history, historyStep -1). -/
def initialState : EditorState where
  image := Option.none
  tool := Tool.none
  color := ⟨255, 0, 0⟩
  lineWidth := 3
  isDrawing := false
  startPoint := Option.none
  currentPath := []
  history := []
  historyStep := -1
  canvasW := 0
  canvasH := 0

/-- addToHistory: history.slice(0, historyStep + 1), push the action,
set the step to the new last index.  In every reachable state
historyStep + 1 is nonnegative, so the slice is the take. -/
def addToHistory (action : DrawAction) (s : EditorState) : EditorState :=
  let newHistory := s.history.take (s.historyStep + 1).toNat ++ [action]
  { s with history := newHistory, historyStep := (newHistory.length : ℤ) - 1 }

/-- handleUndo: decrement the step when it is above -1. -/
def handleUndo (s : EditorState) : EditorState :=
  if s.historyStep > -1 then { s with historyStep := s.historyStep - 1 } else s

/-- handleRedo: increment the step when it is below length - 1. -/
def handleRedo (s : EditorState) : EditorState :=
  if s.historyStep < (s.history.length : ℤ) - 1 then
    { s with historyStep := s.historyStep + 1 }
  else s

/-- Iterated undo. -/
def undoN : ℕ → EditorState → EditorState
  | 0, s => s
  | n + 1, s => undoN n (handleUndo s)

/-- Iterated redo. -/
def redoN : ℕ → EditorState → EditorState
  | 0, s => s
  | n + 1, s => redoN n (handleRedo s)

/-- Record a whole sequence of actions in order. -/
def recordAll (acts : List DrawAction) (s : EditorState) : EditorState :=
  acts.foldl (fun st a => addToHistory a st) s

/-- Size of mosaic blocks (const mosaicSize = 10 in applyMosaic). -/
def mosaicSize : ℕ := 10

/-- Average color of the mosaic block anchored at (mX, mY): getImageData
of the full mosaicSize square (out-of-canvas samples read as transparent
black and are counted), per-channel sum divided by the sample count with
Math.floor, which is natural division. -/
def avgBlock (surf : Bitmap) (mX mY : ℤ) : Pix :=
  let samples := (List.range mosaicSize).flatMap
    (fun j : ℕ => (List.range mosaicSize).map
      (fun i : ℕ => readPix surf (mX + (i : ℤ)) (mY + (j : ℤ))))
  let count := samples.length
  ⟨(samples.map Pix.r).sum / count, (samples.map Pix.g).sum / count,
    (samples.map Pix.b).sum / count⟩

/-- fillRect of the full mosaicSize block anchored at (mX, mY), clipped
to the canvas as the 2D context clips all drawing. -/
def fillBlock (surf : Bitmap) (mX mY : ℤ) (c : Pix) : Bitmap :=
  { surf with pix := fun x y =>
      if mX ≤ x ∧ x < mX + (mosaicSize : ℤ) ∧ mY ≤ y ∧ y < mY + (mosaicSize : ℤ) ∧
         0 ≤ x ∧ x < (surf.w : ℤ) ∧ 0 ≤ y ∧ y < (surf.h : ℤ)
      then c else surf.pix x y }

/-- Anchor coordinates visited by the two nested mosaic loops
(for mY from y while mY is below y + height stepping by mosaicSize, and
likewise mX), row-major as in the source. -/
def blockAnchors (x y : ℤ) (w h : ℕ) : List (ℤ × ℤ) :=
  (List.range ((h + mosaicSize - 1) / mosaicSize)).flatMap
    (fun j => (List.range ((w + mosaicSize - 1) / mosaicSize)).map
      (fun i => (x + ((i * mosaicSize : ℕ) : ℤ), y + ((j * mosaicSize : ℕ) : ℤ))))

/-- One step of the mosaic loop body: average the block as currently on
the canvas, then fill it (the count-positive guard of the source always
holds since every getImageData here has mosaicSize squared samples). -/
def mosaicStep (acc : Bitmap) (a : ℤ × ℤ) : Bitmap :=
  fillBlock acc a.1 a.2 (avgBlock acc a.1 a.2)

/-- Anchors of the mosaic region determined by two points: min corner
plus absolute extents. -/
def mosaicAnchors (p₀ p₁ : Point) : List (ℤ × ℤ) :=
  blockAnchors (min p₀.x p₁.x) (min p₀.y p₁.y) (p₁.x - p₀.x).natAbs (p₁.y - p₀.y).natAbs

/-- applyMosaic: needs at least two points; normalizes the rectangle to
min corner and absolute extents, then runs the block loop sequentially
over the canvas. -/
def applyMosaic (surf : Bitmap) (points : List Point) : Bitmap :=
  match points with
  | p₀ :: p₁ :: _ => (mosaicAnchors p₀ p₁).foldl mosaicStep surf
  | _ => surf

/-- Deterministic integer stand-in for the stroked axis-aligned
rectangle outline between the two corners (strokeRect supports negative
extents, i.e. the corners are not pre-normalized in the source; the
stroked outline is the same geometric border either way). -/
def rectBorderHit (p₀ p₁ : Point) (lw : ℕ) (px py : ℤ) : Prop :=
  let x₁ := min p₀.x p₁.x
  let x₂ := max p₀.x p₁.x
  let y₁ := min p₀.y p₁.y
  let y₂ := max p₀.y p₁.y
  (y₁ - lw ≤ py ∧ py ≤ y₂ + lw ∧ x₁ - lw ≤ px ∧ px ≤ x₂ + lw) ∧
  (2 * (px - x₁).natAbs ≤ lw ∨ 2 * (px - x₂).natAbs ≤ lw ∨
   2 * (py - y₁).natAbs ≤ lw ∨ 2 * (py - y₂).natAbs ≤ lw)

instance (p₀ p₁ : Point) (lw : ℕ) (px py : ℤ) : Decidable (rectBorderHit p₀ p₁ lw px py) := by
  unfold rectBorderHit; infer_instance

/-- Deterministic integer stand-in for the stroked circle centered at
the first point whose radius is the Euclidean distance to the second:
a band around the squared-radius level set. -/
def circleHit (p₀ p₁ : Point) (lw : ℕ) (px py : ℤ) : Prop :=
  let r2 := (p₁.x - p₀.x) ^ 2 + (p₁.y - p₀.y) ^ 2
  ((px - p₀.x) ^ 2 + (py - p₀.y) ^ 2 - r2).natAbs ≤ lw * (2 * Nat.sqrt r2.toNat + 1)

instance (p₀ p₁ : Point) (lw : ℕ) (px py : ℤ) : Decidable (circleHit p₀ p₁ lw px py) := by
  unfold circleHit; infer_instance

/-- Deterministic integer stand-in for one stroked polyline segment:
bounding-box band plus a cross-product distance test. -/
def segHit (a b : Point) (lw : ℕ) (px py : ℤ) : Prop :=
  min a.x b.x - lw ≤ px ∧ px ≤ max a.x b.x + lw ∧
  min a.y b.y - lw ≤ py ∧ py ≤ max a.y b.y + lw ∧
  2 * ((px - a.x) * (b.y - a.y) - (py - a.y) * (b.x - a.x)).natAbs ≤
    lw * ((b.x - a.x).natAbs + (b.y - a.y).natAbs + 1)

instance (a b : Point) (lw : ℕ) (px py : ℤ) : Decidable (segHit a b lw px py) := by
  unfold segHit; infer_instance

/-- Pen stroke through consecutive point pairs of the path. -/
def penHit (pts : List Point) (lw : ℕ) (px py : ℤ) : Prop :=
  ∃ ab ∈ pts.zip pts.tail, segHit ab.1 ab.2 lw px py

instance (pts : List Point) (lw : ℕ) (px py : ℤ) : Decidable (penHit pts lw px py) := by
  unfold penHit; infer_instance

/-- applyAction: set stroke state from the action, then dispatch on the
variant.  The source falls back to line width 3 via a falsy-or, so a
stored width of 0 also becomes 3.  Rectangle and circle need two
points, pen more than one. -/
def applyAction (surf : Bitmap) (action : DrawAction) : Bitmap :=
  let lw : ℕ := match action.lineWidth with
    | some l => if l = 0 then 3 else l
    | Option.none => 3
  match action.type with
  | DrawType.mosaic => applyMosaic surf action.points
  | DrawType.rectangle =>
    match action.points with
    | p₀ :: p₁ :: _ =>
      { surf with pix := fun px py =>
          if rectBorderHit p₀ p₁ lw px py then action.color else surf.pix px py }
    | _ => surf
  | DrawType.circle =>
    match action.points with
    | p₀ :: p₁ :: _ =>
      { surf with pix := fun px py =>
          if circleHit p₀ p₁ lw px py then action.color else surf.pix px py }
    | _ => surf
  | DrawType.pen =>
    if action.points.length > 1 then
      { surf with pix := fun px py =>
          if penHit action.points lw px py then action.color else surf.pix px py }
    else surf

/-- Draw the base image scaled to the canvas dimensions onto a cleared
canvas (nearest-sample embedding of drawImage with scaling; the exact
browser resampling filter is not specified by the source). -/
def drawBase (img : Bitmap) (cw ch : ℕ) : Bitmap :=
  ⟨cw, ch, fun x y =>
    if 0 ≤ x ∧ x < (cw : ℤ) ∧ 0 ≤ y ∧ y < (ch : ℤ) then
      readPix img (x * img.w / cw) (y * img.h / ch)
    else ⟨0, 0, 0⟩⟩

/-- Actions considered active: history.slice(0, historyStep + 1). -/
def activeActions (s : EditorState) : List DrawAction :=
  s.history.take (s.historyStep + 1).toNat

/-- redrawCanvas: nothing happens without a loaded image; otherwise
clear, draw the base image, then apply the active actions in order. -/
def redrawCanvas (s : EditorState) : Option Bitmap :=
  match s.image with
  | Option.none => Option.none
  | some img => some ((activeActions s).foldl applyAction (drawBase img s.canvasW s.canvasH))

/-- Maximum preview dimensions of the canvas-setup effect. -/
def maxWidth : ℕ := 800

/-- Maximum preview height of the canvas-setup effect. -/
def maxHeight : ℕ := 600

/-- Canvas dimensions chosen by the canvas-setup effect for an image of
the given natural size: scale down preserving the aspect ratio when the
image exceeds the caps (canvas dimension assignment truncates). -/
def scaledDims (w h : ℕ) : ℕ × ℕ :=
  if w > maxWidth ∨ h > maxHeight then
    let ratio : ℚ := min ((maxWidth : ℚ) / w) ((maxHeight : ℚ) / h)
    ((⌊(w : ℚ) * ratio⌋).toNat, (⌊(h : ℚ) * ratio⌋).toNat)
  else (w, h)

/-- Completion of an image load (handleFileChange reader onload, or the
imageFile/imageUrl effect): setImage plus the canvas-setup effect that
follows it.  Note that none of these touch history or historyStep. -/
def loadImage (s : EditorState) (img : Bitmap) : EditorState :=
  let d := scaledDims img.w img.h
  { s with image := some img, canvasW := d.1, canvasH := d.2 }

/-- applyCrop.  Returns error for the degenerate region: getImageData
with zero width or height raises IndexSizeError, which aborts the event
handler before the canvas is resized or any state is set.  When no
canvas content exists the source returns normally without changes.  On
success the canvas is resized to the crop extents, the cropped region
becomes the new base image, and history is cleared with the step back
at -1 (setImage also reruns the canvas-setup effect, which keeps the
crop dimensions since they fit the caps). -/
def applyCrop (s : EditorState) (sp ep : Point) : Except Unit EditorState :=
  match redrawCanvas s with
  | Option.none => Except.ok s
  | some surf =>
    let x := min sp.x ep.x
    let y := min sp.y ep.y
    let w := (ep.x - sp.x).natAbs
    let h := (ep.y - sp.y).natAbs
    if w = 0 ∨ h = 0 then Except.error ()
    else
      let cropped : Bitmap := ⟨w, h, fun i j => readPix surf (x + i) (y + j)⟩
      Except.ok { s with image := some cropped, history := [], historyStep := -1,
                         canvasW := w, canvasH := h }

/-- handleMouseDown: ignored with no active tool; otherwise start the
gesture, and seed the pen path with the start point. -/
def handleMouseDown (s : EditorState) (p : Point) : EditorState :=
  if s.tool = Tool.none then s
  else
    { s with isDrawing := true, startPoint := some p,
             currentPath := if s.tool = Tool.pen then [p] else s.currentPath }

/-- handleMouseMove: ignored outside a gesture.  Only the pen branch
changes component state (it grows the path); every other tool paints a
transient preview on the canvas which the next redraw clears. -/
def handleMouseMove (s : EditorState) (p : Point) : EditorState :=
  if s.isDrawing = false ∨ s.startPoint = Option.none then s
  else if s.tool = Tool.pen then { s with currentPath := s.currentPath ++ [p] } else s

/-- handleMouseUp: ignored outside a gesture.  Ends the gesture, then
finalizes according to the tool: crop transforms the base image, mosaic
and rectangle and circle record a two-point action, pen records its path
when it has more than one point.  No branch handles eraser (or none), so
those tools only clear the transient gesture state.  When applyCrop
raises, the trailing setStartPoint and setCurrentPath calls are skipped
because the exception propagates out of the handler. -/
def handleMouseUp (s : EditorState) (p : Point) : EditorState :=
  if s.isDrawing = false ∨ s.startPoint = Option.none then s
  else
    match s.startPoint with
    | Option.none => s
    | some sp =>
      let s₁ := { s with isDrawing := false }
      match s.tool with
      | Tool.crop =>
        match applyCrop s₁ sp p with
        | Except.error _ => s₁
        | Except.ok s₂ => { s₂ with startPoint := Option.none, currentPath := [] }
      | Tool.mosaic =>
        { addToHistory ⟨DrawType.mosaic, [sp, p], s.color, Option.none⟩ s₁ with
            startPoint := Option.none, currentPath := [] }
      | Tool.rectangle =>
        { addToHistory ⟨DrawType.rectangle, [sp, p], s.color, some s.lineWidth⟩ s₁ with
            startPoint := Option.none, currentPath := [] }
      | Tool.circle =>
        { addToHistory ⟨DrawType.circle, [sp, p], s.color, some s.lineWidth⟩ s₁ with
            startPoint := Option.none, currentPath := [] }
      | Tool.pen =>
        if s.currentPath.length > 1 then
          { addToHistory ⟨DrawType.pen, s.currentPath, s.color, some s.lineWidth⟩ s₁ with
              startPoint := Option.none, currentPath := [] }
        else { s₁ with startPoint := Option.none, currentPath := [] }
      | _ => { s₁ with startPoint := Option.none, currentPath := [] }

/-- One complete gesture: pointer-down, a sequence of moves, pointer-up. -/
def runGesture (s : EditorState) (p₀ : Point) (moves : List Point) (p₁ : Point) : EditorState :=
  handleMouseUp ((moves.foldl handleMouseMove (handleMouseDown s p₀))) p₁

end Raster

namespace Merge

/-- Attribute record of the CustomImage node type (addAttributes in the
source): id, src, alt, title, width, textAlign. -/
structure Attrs where
  id : String
  src : String
  alt : String
  title : String
  width : String
  textAlign : String
  deriving DecidableEq, Repr

/-- A document node as the merge code sees it: a type name, attributes,
opaque content and marks, and its ProseMirror nodeSize (at least 1 for
every real node; leaf inline nodes have size 1). -/
structure Node where
  kind : String
  attrs : Attrs
  content : List String
  marks : List String
  nodeSize : ℕ
  deriving DecidableEq, Repr

/-- The document, embedded as the sequence of sibling nodes the merge
transaction addresses; a node's position is the total size of the nodes
before it, exactly the ProseMirror position arithmetic the source
relies on. -/
abbrev Doc := List Node

/-- Total nodeSize of a list of nodes. -/
def sizeSum (l : Doc) : ℕ := (l.map Node.nodeSize).sum

/-- Position-and-node of the first node with the given type name and id
attribute (doc.descendants in mergeImages stops on the first match; the
same search embeds getPos of the drop target, which reports the current
position of the node the component renders). -/
def findById (k i : String) : Doc → Option (ℕ × Node)
  | [] => Option.none
  | n :: rest =>
    if n.kind = k ∧ n.attrs.id = i then some (0, n)
    else (findById k i rest).map (fun pr => (n.nodeSize + pr.1, pr.2))

/-- Split the document at a position.  Fails (as the ProseMirror
transaction primitives raise) when the position is not a boundary
between these nodes. -/
def splitAtPos (p : ℕ) : Doc → Option (Doc × Doc)
  | [] => if p = 0 then some ([], []) else Option.none
  | n :: rest =>
    if p = 0 then some ([], n :: rest)
    else if p < n.nodeSize then Option.none
    else (splitAtPos (p - n.nodeSize) rest).map (fun pr => (n :: pr.1, pr.2))

/-- doc.nodeAt: the node starting at the given position. -/
def nodeAt (p : ℕ) (d : Doc) : Option Node :=
  (splitAtPos p d).bind (fun pr => pr.2.head?)

/-- tr.setNodeMarkup with unchanged type: replace the attributes of the
node at the position. -/
def setNodeMarkup (p : ℕ) (a : Attrs) (d : Doc) : Option Doc :=
  (splitAtPos p d).bind (fun pr =>
    match pr.2 with
    | [] => Option.none
    | n :: rest => some (pr.1 ++ { n with attrs := a } :: rest))

/-- Drop nodes totalling exactly the given size from the front. -/
def dropSize (k : ℕ) : Doc → Option Doc
  | [] => if k = 0 then some [] else Option.none
  | n :: rest =>
    if k = 0 then some (n :: rest)
    else if k < n.nodeSize then Option.none
    else dropSize (k - n.nodeSize) rest

/-- tr.delete of the position range. -/
def deleteRange (a b : ℕ) (d : Doc) : Option Doc :=
  (splitAtPos a d).bind (fun pr => (dropSize (b - a) pr.2).map (fun r => pr.1 ++ r))

/-- tr.insert of a node at a position. -/
def insertAt (p : ℕ) (n : Node) (d : Doc) : Option Doc :=
  (splitAtPos p d).map (fun pr => pr.1 ++ n :: pr.2)

/-- Math.round of the source, which is floor of x + 1/2, exactly
Mathlib round; the target gets round of its ratio share of 98 percent
(2 percent gap). -/
def targetWidthPercent (rt rd : ℚ) : ℤ :=
  round (rt / (rt + rd) * 98)

/-- Remaining share of the 98 percent goes to the dragged block. -/
def draggedWidthPercent (rt rd : ℚ) : ℤ :=
  98 - targetWidthPercent rt rd

/-- Percentage string written into the width attribute. -/
def percentString (n : ℤ) : String :=
  toString n ++ "%"

/-- Attribute spread of the source (copy all attributes, overwrite
width with the percentage string). -/
def withWidth (a : Attrs) (p : ℤ) : Attrs :=
  { a with width := percentString p }

/-- The transaction body of mergeImages once both nodes are resolved:
set both widths at the original positions, delete the dragged node,
compensate the insert position for the deletion shift when the dragged
node sat before the target, and reinsert a node of the same type created
from the new attributes and the dragged node's content and marks. -/
def mergeTransaction (draggedPos : ℕ) (draggedNode : Node) (targetPos : ℕ)
    (targetNode : Node) (rt rd : ℚ) (d : Doc) : Option Doc :=
  let targetAttrs := withWidth targetNode.attrs (targetWidthPercent rt rd)
  let draggedAttrs := withWidth draggedNode.attrs (draggedWidthPercent rt rd)
  (setNodeMarkup targetPos targetAttrs d).bind (fun d₁ =>
    (setNodeMarkup draggedPos draggedAttrs d₁).bind (fun d₂ =>
      (deleteRange draggedPos (draggedPos + draggedNode.nodeSize) d₂).bind (fun d₃ =>
        let targetPosAfterDelete :=
          if draggedPos < targetPos then targetPos - draggedNode.nodeSize else targetPos
        let insertPos := targetPosAfterDelete + targetNode.nodeSize
        insertAt insertPos { draggedNode with attrs := draggedAttrs } d₃)))

/-- mergeImages: resolve the dragged node by id, the target position
(getPos of the drop target) and the target node; abort silently when any
is missing.  The aspect ratios arrive resolved (the async probe defaults
a failing image to ratio 1).  The whole transaction is dispatched once;
a transaction the primitives reject is never dispatched, leaving the
document unchanged. -/
def mergeImages (k draggedId targetId : String) (rt rd : ℚ) (d : Doc) : Doc :=
  match findById k draggedId d with
  | Option.none => d
  | some (draggedPos, draggedNode) =>
    match findById k targetId d with
    | Option.none => d
    | some (targetPos, _) =>
      match nodeAt targetPos d with
      | Option.none => d
      | some targetNode =>
        match mergeTransaction draggedPos draggedNode targetPos targetNode rt rd d with
        | Option.none => d
        | some d₄ => d₄

end Merge

namespace Raster

/-- History-cursor invariant of the spec: -1 is the floor of the step
and the step stays strictly below the history length. -/
def Inv (s : EditorState) : Prop :=
  -1 ≤ s.historyStep ∧ s.historyStep < (s.history.length : ℤ)

instance (s : EditorState) : Decidable (Inv s) := by
  unfold Inv; infer_instance

/-- Membership of a pixel coordinate in the mosaicSize block anchored
at a. -/
def inBlock (a : ℤ × ℤ) (px py : ℤ) : Prop :=
  a.1 ≤ px ∧ px < a.1 + (mosaicSize : ℤ) ∧ a.2 ≤ py ∧ py < a.2 + (mosaicSize : ℤ)

instance (a : ℤ × ℤ) (px py : ℤ) : Decidable (inBlock a px py) := by
  unfold inBlock; infer_instance

/-- Small all-black sample image for concrete instances. -/
def sampleImg : Bitmap := ⟨4, 4, fun _ _ => ⟨0, 0, 0⟩⟩

/-- Sample recorded action for concrete instances. -/
def sampleAct : DrawAction := ⟨DrawType.rectangle, [⟨0, 0⟩, ⟨1, 1⟩], ⟨255, 0, 0⟩, some 3⟩

/-- Editor state with one recorded action and an active cursor. -/
def histState : EditorState := addToHistory sampleAct (loadImage initialState sampleImg)

/-- histState with the mosaic tool armed. -/
def mosaicState : EditorState := { histState with tool := Tool.mosaic }

/-- histState with the crop tool armed. -/
def cropState : EditorState := { histState with tool := Tool.crop }

/-- histState with the eraser tool armed. -/
def eraserState : EditorState := { histState with tool := Tool.eraser }

/-- Ten by ten surface whose top-left five by five square is gray 100
and whose remainder is black: base surface of the mosaic edge-block
counterexample. -/
def base10 : Bitmap :=
  ⟨10, 10, fun x y => if 0 ≤ x ∧ x < 5 ∧ 0 ≤ y ∧ y < 5 then ⟨100, 100, 100⟩ else ⟨0, 0, 0⟩⟩

end Raster

namespace Merge

/-- Concrete target image node for merge instances. -/
def tNode : Node := ⟨"image", ⟨"t", "pic-t", "", "", "auto", "left"⟩, [], [], 1⟩

/-- Concrete dragged image node for merge instances. -/
def dNode : Node := ⟨"image", ⟨"d", "pic-d", "", "", "auto", "left"⟩, [], [], 1⟩

end Merge

namespace Raster

lemma handleUndo_image (s : EditorState) : (handleUndo s).image = s.image := by
  unfold handleUndo; split <;> rfl

lemma handleUndo_history (s : EditorState) : (handleUndo s).history = s.history := by
  unfold handleUndo; split <;> rfl

lemma handleUndo_canvas (s : EditorState) :
    (handleUndo s).canvasW = s.canvasW ∧ (handleUndo s).canvasH = s.canvasH := by
  unfold handleUndo; constructor <;> (split <;> rfl)

lemma handleRedo_image (s : EditorState) : (handleRedo s).image = s.image := by
  unfold handleRedo; split <;> rfl

lemma handleRedo_history (s : EditorState) : (handleRedo s).history = s.history := by
  unfold handleRedo; split <;> rfl

lemma handleRedo_canvas (s : EditorState) :
    (handleRedo s).canvasW = s.canvasW ∧ (handleRedo s).canvasH = s.canvasH := by
  unfold handleRedo; constructor <;> (split <;> rfl)

lemma undoN_frame (n : ℕ) (s : EditorState) :
    (undoN n s).image = s.image ∧ (undoN n s).history = s.history ∧
    (undoN n s).canvasW = s.canvasW ∧ (undoN n s).canvasH = s.canvasH := by
  induction n generalizing s with
  | zero => exact ⟨rfl, rfl, rfl, rfl⟩
  | succ n ih =>
    have h := ih (handleUndo s)
    simp only [undoN]
    exact ⟨h.1.trans (handleUndo_image s), h.2.1.trans (handleUndo_history s),
      h.2.2.1.trans (handleUndo_canvas s).1, h.2.2.2.trans (handleUndo_canvas s).2⟩

lemma redoN_frame (n : ℕ) (s : EditorState) :
    (redoN n s).image = s.image ∧ (redoN n s).history = s.history ∧
    (redoN n s).canvasW = s.canvasW ∧ (redoN n s).canvasH = s.canvasH := by
  induction n generalizing s with
  | zero => exact ⟨rfl, rfl, rfl, rfl⟩
  | succ n ih =>
    have h := ih (handleRedo s)
    simp only [redoN]
    exact ⟨h.1.trans (handleRedo_image s), h.2.1.trans (handleRedo_history s),
      h.2.2.1.trans (handleRedo_canvas s).1, h.2.2.2.trans (handleRedo_canvas s).2⟩

lemma undoN_step (n : ℕ) (s : EditorState) (h : s.historyStep = (n : ℤ) - 1) :
    (undoN n s).historyStep = -1 := by
  induction n generalizing s with
  | zero => simpa using h
  | succ n ih =>
    simp only [undoN]
    have hpos : s.historyStep > -1 := by omega
    have hu : handleUndo s = { s with historyStep := s.historyStep - 1 } := by
      unfold handleUndo; rw [if_pos hpos]
    rw [hu]
    exact ih _ (by dsimp only []; omega)

lemma redoN_step (n : ℕ) (s : EditorState)
    (h : s.historyStep = (s.history.length : ℤ) - 1 - n) :
    (redoN n s).historyStep = (s.history.length : ℤ) - 1 := by
  induction n generalizing s with
  | zero => simpa using h
  | succ n ih =>
    simp only [redoN]
    have hlt : s.historyStep < (s.history.length : ℤ) - 1 := by omega
    have hr : handleRedo s = { s with historyStep := s.historyStep + 1 } := by
      unfold handleRedo; rw [if_pos hlt]
    rw [hr]
    have := ih { s with historyStep := s.historyStep + 1 } (by dsimp only []; omega)
    simpa using this

lemma redoN_fix (k : ℕ) (s : EditorState)
    (h : ¬ s.historyStep < (s.history.length : ℤ) - 1) : redoN k s = s := by
  induction k with
  | zero => rfl
  | succ k ih =>
    simp only [redoN]
    have : handleRedo s = s := by unfold handleRedo; rw [if_neg h]
    rw [this, ih]

lemma addToHistory_full (a : DrawAction) (s : EditorState)
    (h : s.historyStep = (s.history.length : ℤ) - 1) :
    (addToHistory a s).history = s.history ++ [a] ∧
    (addToHistory a s).historyStep = ((s.history.length : ℤ) + 1) - 1 ∧
    (addToHistory a s).image = s.image ∧
    (addToHistory a s).canvasW = s.canvasW ∧ (addToHistory a s).canvasH = s.canvasH := by
  have htake : (s.historyStep + 1).toNat = s.history.length := by omega
  unfold addToHistory
  simp [htake]

lemma recordAll_spec (acts : List DrawAction) (s : EditorState)
    (h : s.historyStep = (s.history.length : ℤ) - 1) :
    (recordAll acts s).history = s.history ++ acts ∧
    (recordAll acts s).historyStep = ((s.history.length : ℤ) + acts.length) - 1 ∧
    (recordAll acts s).image = s.image ∧
    (recordAll acts s).canvasW = s.canvasW ∧ (recordAll acts s).canvasH = s.canvasH := by
  induction acts generalizing s with
  | nil =>
    refine ⟨(List.append_nil s.history).symm, ?_, rfl, rfl, rfl⟩
    show s.historyStep = _
    simpa using h
  | cons a acts ih =>
    have hfold : recordAll (a :: acts) s = recordAll acts (addToHistory a s) := rfl
    have hone := addToHistory_full a s h
    have hstep : (addToHistory a s).historyStep =
        ((addToHistory a s).history.length : ℤ) - 1 := by
      rw [hone.1, hone.2.1]; simp
    have hrec := ih (addToHistory a s) hstep
    rw [hfold]
    refine ⟨?_, ?_, ?_, ?_, ?_⟩
    · rw [hrec.1, hone.1]; simp
    · rw [hrec.2.1, hone.1]
      simp only [List.length_append, List.length_cons, List.length_singleton,
        List.length_nil]
      push_cast
      ring
    · rw [hrec.2.2.1, hone.2.2.1]
    · rw [hrec.2.2.2.1, hone.2.2.2.1]
    · rw [hrec.2.2.2.2, hone.2.2.2.2]

lemma redrawCanvas_congr (s₁ s₂ : EditorState) (himg : s₁.image = s₂.image)
    (hh : s₁.history = s₂.history) (hs : s₁.historyStep = s₂.historyStep)
    (hw : s₁.canvasW = s₂.canvasW) (hch : s₁.canvasH = s₂.canvasH) :
    redrawCanvas s₁ = redrawCanvas s₂ := by
  unfold redrawCanvas activeActions
  rw [himg, hh, hs, hw, hch]

/-- Claim C1: for every base image and every sequence of N recorded
DrawActions, undoing N times and then redoing N times yields a
composited surface identical to the one obtained by applying all N
actions directly: the render is recomputed from the base image through
the cursor, and the cursor returns exactly to its pre-undo position. -/
theorem replay_deterministic (img : Bitmap) (acts : List DrawAction) :
    redrawCanvas (redoN acts.length (undoN acts.length
      (recordAll acts (loadImage initialState img)))) =
    redrawCanvas (recordAll acts (loadImage initialState img)) := by
  set s₀ := loadImage initialState img with hs₀
  have h₀ : s₀.historyStep = (s₀.history.length : ℤ) - 1 := rfl
  obtain ⟨hrh, hrs, hri, hrw, hrc⟩ := recordAll_spec acts s₀ h₀
  set s := recordAll acts s₀ with hs
  have hlen : s.history.length = acts.length := by
    rw [hrh]; rfl
  have hstep : s.historyStep = (acts.length : ℤ) - 1 := by
    rw [hrs]
    show ((([] : List DrawAction).length : ℤ) + acts.length) - 1 = _
    simp
  have hu_step : (undoN acts.length s).historyStep = -1 :=
    undoN_step acts.length s hstep
  obtain ⟨hui, huh, huw, huc⟩ := undoN_frame acts.length s
  have hr_pre : (undoN acts.length s).historyStep =
      (((undoN acts.length s).history.length : ℤ)) - 1 - acts.length := by
    rw [hu_step, huh, hlen]; omega
  have hr_step : (redoN acts.length (undoN acts.length s)).historyStep =
      (((undoN acts.length s).history.length : ℤ)) - 1 :=
    redoN_step acts.length _ hr_pre
  obtain ⟨hri2, hrh2, hrw2, hrc2⟩ := redoN_frame acts.length (undoN acts.length s)
  apply redrawCanvas_congr
  · rw [hri2, hui]
  · rw [hrh2, huh]
  · rw [hr_step, huh, hlen, hstep]
  · rw [hrw2, huw]
  · rw [hrc2, huc]

/-- Claim C2: recording after undos truncates the history to the active
prefix and appends, with the cursor at the new last index; from history
[x, y, z] at cursor 2, two undos then recording a new action yields
history [x, a] with cursor 1, and no number of redos changes that state
again, so the discarded branch is unreachable. -/
theorem record_truncates (s : EditorState) (a : DrawAction)
    (h₁ : -1 ≤ s.historyStep) (h₂ : s.historyStep < (s.history.length : ℤ)) :
    (addToHistory a s).history = s.history.take (s.historyStep + 1).toNat ++ [a]
    ∧ (addToHistory a s).historyStep = ((addToHistory a s).history.length : ℤ) - 1
    ∧ (∀ x y z : DrawAction, ∀ s₃ : EditorState,
        s₃.history = [x, y, z] → s₃.historyStep = 2 →
        (addToHistory a (handleUndo (handleUndo s₃))).history = [x, a]
        ∧ (addToHistory a (handleUndo (handleUndo s₃))).historyStep = 1
        ∧ ∀ k, redoN k (addToHistory a (handleUndo (handleUndo s₃))) =
               addToHistory a (handleUndo (handleUndo s₃))) := by
  refine ⟨rfl, rfl, ?_⟩
  intro x y z s₃ hh hs
  have hu1 : handleUndo s₃ = { s₃ with historyStep := s₃.historyStep - 1 } := by
    unfold handleUndo; rw [if_pos (by omega)]
  have hu2 : handleUndo (handleUndo s₃) = { s₃ with historyStep := s₃.historyStep - 2 } := by
    rw [hu1]
    unfold handleUndo
    rw [if_pos (by dsimp only []; omega)]
    dsimp only []
    congr 1
    omega
  have hh2 : (handleUndo (handleUndo s₃)).history = [x, y, z] := by rw [hu2]; exact hh
  have hs2 : (handleUndo (handleUndo s₃)).historyStep = 0 := by
    rw [hu2]; dsimp only []; omega
  have hrec : (addToHistory a (handleUndo (handleUndo s₃))).history = [x, a] := by
    unfold addToHistory
    dsimp only []
    rw [hs2, hh2]
    rfl
  have hrs : (addToHistory a (handleUndo (handleUndo s₃))).historyStep = 1 := by
    unfold addToHistory
    dsimp only []
    rw [hs2, hh2]
    rfl
  refine ⟨hrec, hrs, ?_⟩
  intro k
  apply redoN_fix
  rw [hrec, hrs]
  simp

theorem record_truncates_witness :
    (addToHistory sampleAct histState).history =
      histState.history.take (histState.historyStep + 1).toNat ++ [sampleAct] :=
  (record_truncates histState sampleAct (by decide) (by decide)).1

/-- Claim C9: the invariant -1 <= step < length holds in the initial
state and is preserved by record, undo, redo, crop completion (in both
the unchanged and the reset outcome) and base-image load. -/
theorem history_invariant :
    Inv initialState
    ∧ (∀ s a, Inv s → Inv (addToHistory a s))
    ∧ (∀ s, Inv s → Inv (handleUndo s))
    ∧ (∀ s, Inv s → Inv (handleRedo s))
    ∧ (∀ s sp ep s₂, Inv s → applyCrop s sp ep = Except.ok s₂ → Inv s₂)
    ∧ (∀ s img, Inv s → Inv (loadImage s img)) := by
  refine ⟨by decide, ?_, ?_, ?_, ?_, ?_⟩
  · intro s a _h
    dsimp only [Inv, addToHistory]
    omega
  · intro s h
    dsimp only [Inv] at h
    by_cases hc : s.historyStep > -1
    · have hu : handleUndo s = { s with historyStep := s.historyStep - 1 } := by
        unfold handleUndo; rw [if_pos hc]
      rw [hu]
      refine ⟨?_, ?_⟩
      · show -1 ≤ s.historyStep - 1
        omega
      · show s.historyStep - 1 < (s.history.length : ℤ)
        omega
    · have hu : handleUndo s = s := by
        unfold handleUndo; rw [if_neg hc]
      rw [hu]
      exact h
  · intro s h
    dsimp only [Inv] at h
    by_cases hc : s.historyStep < (s.history.length : ℤ) - 1
    · have hr : handleRedo s = { s with historyStep := s.historyStep + 1 } := by
        unfold handleRedo; rw [if_pos hc]
      rw [hr]
      refine ⟨?_, ?_⟩
      · show -1 ≤ s.historyStep + 1
        omega
      · show s.historyStep + 1 < (s.history.length : ℤ)
        omega
    · have hr : handleRedo s = s := by
        unfold handleRedo; rw [if_neg hc]
      rw [hr]
      exact h
  · intro s sp ep s₂ h hcrop
    unfold applyCrop at hcrop
    rcases hred : redrawCanvas s with _ | surf <;> rw [hred] at hcrop
    · cases hcrop
      exact h
    · dsimp only [] at hcrop
      split at hcrop
      · simp at hcrop
      · cases hcrop
        refine ⟨le_refl _, ?_⟩
        show (-1 : ℤ) < (([] : List DrawAction).length : ℤ)
        simp
  · intro s img h
    exact h

theorem history_invariant_witness :
    Inv (addToHistory sampleAct initialState) :=
  history_invariant.2.1 initialState sampleAct (by decide)

lemma handleMouseDown_tool (s : EditorState) (p : Point) :
    (handleMouseDown s p).tool = s.tool := by
  unfold handleMouseDown; split <;> rfl

lemma handleMouseDown_frame (s : EditorState) (p : Point) :
    (handleMouseDown s p).history = s.history ∧
    (handleMouseDown s p).historyStep = s.historyStep ∧
    (handleMouseDown s p).image = s.image := by
  unfold handleMouseDown; refine ⟨?_, ?_, ?_⟩ <;> (split <;> rfl)

lemma handleMouseMove_non_pen (s : EditorState) (p : Point) (h : s.tool ≠ Tool.pen) :
    handleMouseMove s p = s := by
  simp [handleMouseMove, h]

lemma foldl_moves_non_pen (moves : List Point) (s : EditorState) (h : s.tool ≠ Tool.pen) :
    moves.foldl handleMouseMove s = s := by
  induction moves with
  | nil => rfl
  | cons m moves ih =>
    simp only [List.foldl_cons, handleMouseMove_non_pen s m h]
    exact ih

lemma handleMouseUp_eraser (s : EditorState) (h : s.tool = Tool.eraser) (p : Point) :
    (handleMouseUp s p).history = s.history ∧
    (handleMouseUp s p).historyStep = s.historyStep ∧
    (handleMouseUp s p).image = s.image := by
  unfold handleMouseUp
  split
  · exact ⟨rfl, rfl, rfl⟩
  · rcases hsp : s.startPoint with _ | sp
    · exact ⟨rfl, rfl, rfl⟩
    · rw [h]
      exact ⟨rfl, rfl, rfl⟩

/-- Claim C10: a complete gesture performed with the eraser tool leaves
the persistent editor state untouched: history, cursor and base image
are exactly as before, because handleMouseUp finalizes no eraser
branch. -/
theorem eraser_gesture_noop (s : EditorState) (h : s.tool = Tool.eraser)
    (p₀ : Point) (moves : List Point) (p₁ : Point) :
    (runGesture s p₀ moves p₁).history = s.history
    ∧ (runGesture s p₀ moves p₁).historyStep = s.historyStep
    ∧ (runGesture s p₀ moves p₁).image = s.image := by
  unfold runGesture
  have htool : (handleMouseDown s p₀).tool = Tool.eraser := by
    rw [handleMouseDown_tool, h]
  rw [foldl_moves_non_pen moves _ (by rw [htool]; simp)]
  have hup := handleMouseUp_eraser (handleMouseDown s p₀) htool p₁
  have hdown := handleMouseDown_frame s p₀
  exact ⟨hup.1.trans hdown.1, hup.2.1.trans hdown.2.1, hup.2.2.trans hdown.2.2⟩

theorem eraser_gesture_noop_witness :
    (runGesture eraserState ⟨0, 0⟩ [⟨1, 1⟩] ⟨2, 2⟩).history = eraserState.history :=
  (eraser_gesture_noop eraserState (by decide) ⟨0, 0⟩ [⟨1, 1⟩] ⟨2, 2⟩).1

lemma applyCrop_degenerate (s : EditorState) (sp ep : Point)
    (hdeg : (ep.x - sp.x).natAbs = 0 ∨ (ep.y - sp.y).natAbs = 0) :
    applyCrop s sp ep = Except.ok s ∨ applyCrop s sp ep = Except.error () := by
  unfold applyCrop
  rcases redrawCanvas s with _ | surf
  · left; rfl
  · right
    dsimp only []
    rw [if_pos hdeg]

/-- Claim C4 (amended): a degenerate crop gesture (zero width or zero
height) leaves the base image, the surface dimensions and the history
unchanged, because getImageData raises on an empty region before any
state is touched; a degenerate mosaic gesture, however, still records a
DrawAction exactly like any other mosaic gesture (the source has no
emptiness guard on the mosaic branch), appending it to the active prefix
and advancing the cursor to the new last index. -/
theorem degenerate_gesture (s : EditorState) (sp ep : Point)
    (hD : s.isDrawing = true) (hS : s.startPoint = some sp)
    (hdeg : (ep.x - sp.x).natAbs = 0 ∨ (ep.y - sp.y).natAbs = 0) :
    (s.tool = Tool.crop →
      (handleMouseUp s ep).image = s.image
      ∧ (handleMouseUp s ep).history = s.history
      ∧ (handleMouseUp s ep).historyStep = s.historyStep
      ∧ (handleMouseUp s ep).canvasW = s.canvasW
      ∧ (handleMouseUp s ep).canvasH = s.canvasH)
    ∧ (s.tool = Tool.mosaic →
      (handleMouseUp s ep).history =
        s.history.take (s.historyStep + 1).toNat ++
          [⟨DrawType.mosaic, [sp, ep], s.color, Option.none⟩]
      ∧ (handleMouseUp s ep).historyStep =
          (((handleMouseUp s ep).history.length : ℤ)) - 1) := by
  constructor
  · intro hT
    obtain ⟨img, tool, color, lw, drawing, startP, path, hist, step, cw, ch⟩ := s
    dsimp only [] at hD hS hT
    subst hD hS hT
    unfold handleMouseUp
    rw [if_neg (by simp)]
    dsimp only []
    rcases applyCrop_degenerate
        ⟨img, Tool.crop, color, lw, false, some sp, path, hist, step, cw, ch⟩
        sp ep hdeg with hc | hc <;>
      rw [hc] <;> exact ⟨rfl, rfl, rfl, rfl, rfl⟩
  · intro hT
    obtain ⟨img, tool, color, lw, drawing, startP, path, hist, step, cw, ch⟩ := s
    dsimp only [] at hD hS hT
    subst hD hS hT
    unfold handleMouseUp
    rw [if_neg (by simp)]
    exact ⟨rfl, rfl⟩

theorem degenerate_gesture_witness :
    (handleMouseUp { cropState with isDrawing := true, startPoint := some ⟨1, 1⟩ }
        ⟨1, 1⟩).history =
      ({ cropState with isDrawing := true, startPoint := some ⟨1, 1⟩ } :
        EditorState).history :=
  ((degenerate_gesture { cropState with isDrawing := true, startPoint := some ⟨1, 1⟩ }
      ⟨1, 1⟩ ⟨1, 1⟩ (by decide) (by decide) (by decide)).1 (by decide)).2.1

/-- Claim C4 as stated is false on the code: a mosaic gesture whose
region is a single point (start equals end) still records a DrawAction,
so the history length changes. -/
theorem degenerate_mosaic_records_cex :
    (runGesture mosaicState ⟨1, 1⟩ [] ⟨1, 1⟩).history.length ≠
      mosaicState.history.length := by decide

/-- Claim C5 (amended): completing a crop (image present, nondegenerate
region) unconditionally empties the history and resets the cursor to
-1; loading a new base image, however, leaves history and cursor
exactly as they were — the file-change handler and the load effect only
replace the image. -/
theorem crop_clears_history (s : EditorState) (sp ep : Point)
    (hsome : s.image.isSome = true)
    (hw : (ep.x - sp.x).natAbs ≠ 0) (hh : (ep.y - sp.y).natAbs ≠ 0) :
    (∃ s₂, applyCrop s sp ep = Except.ok s₂ ∧ s₂.history = [] ∧ s₂.historyStep = -1)
    ∧ (∀ t img, (loadImage t img).history = t.history
        ∧ (loadImage t img).historyStep = t.historyStep) := by
  constructor
  · rcases himg : s.image with _ | img
    · rw [himg] at hsome
      simp at hsome
    · unfold applyCrop redrawCanvas
      rw [himg]
      dsimp only []
      rw [if_neg (by push_neg; exact ⟨hw, hh⟩)]
      exact ⟨_, rfl, rfl, rfl⟩
  · intro t img
    exact ⟨rfl, rfl⟩

theorem crop_clears_history_witness :
    ∃ s₂, applyCrop (loadImage initialState sampleImg) ⟨0, 0⟩ ⟨2, 2⟩ = Except.ok s₂
      ∧ s₂.history = [] ∧ s₂.historyStep = -1 :=
  (crop_clears_history (loadImage initialState sampleImg) ⟨0, 0⟩ ⟨2, 2⟩
    (by decide) (by decide) (by decide)).1

/-- Claim C5 as stated is false on the code: loading a new base image
does not clear the history — after one recorded action, a file load
leaves the action in place and the cursor active. -/
theorem load_keeps_history_cex :
    ¬ ((loadImage histState sampleImg).history = []
       ∧ (loadImage histState sampleImg).historyStep = -1) := by decide

end Raster

namespace Merge

lemma sizeSum_cons (n : Node) (l : Doc) : sizeSum (n :: l) = n.nodeSize + sizeSum l := by
  unfold sizeSum; simp

lemma sizeSum_append (l r : Doc) : sizeSum (l ++ r) = sizeSum l + sizeSum r := by
  unfold sizeSum; simp

lemma findById_prefix (k i : String) (A : Doc) (m : Node) (r : Doc)
    (hA : ∀ n ∈ A, ¬(n.kind = k ∧ n.attrs.id = i))
    (hm : m.kind = k) (hi : m.attrs.id = i) :
    findById k i (A ++ m :: r) = some (sizeSum A, m) := by
  induction A with
  | nil =>
    show findById k i (m :: r) = _
    unfold findById
    rw [if_pos ⟨hm, hi⟩]
    rfl
  | cons a A ih =>
    have ha := hA a (by simp)
    have hrest : ∀ n ∈ A, ¬(n.kind = k ∧ n.attrs.id = i) := fun n hn => hA n (by simp [hn])
    show findById k i (a :: (A ++ m :: r)) = _
    unfold findById
    rw [if_neg ha, ih hrest]
    simp [sizeSum_cons]

lemma splitAtPos_append (l r : Doc) (hl : ∀ n ∈ l, 0 < n.nodeSize) :
    splitAtPos (sizeSum l) (l ++ r) = some (l, r) := by
  induction l with
  | nil =>
    show splitAtPos 0 r = some ([], r)
    cases r <;> rfl
  | cons n l ih =>
    have hn := hl n (by simp)
    have hrest : ∀ m ∈ l, 0 < m.nodeSize := fun m hm => hl m (by simp [hm])
    rw [sizeSum_cons]
    show splitAtPos (n.nodeSize + sizeSum l) (n :: (l ++ r)) = _
    unfold splitAtPos
    rw [if_neg (by omega), if_neg (by omega)]
    have harg : n.nodeSize + sizeSum l - n.nodeSize = sizeSum l := by omega
    rw [harg, ih hrest]
    rfl

lemma setNodeMarkup_append (l : Doc) (n : Node) (r : Doc) (a : Attrs)
    (hl : ∀ m ∈ l, 0 < m.nodeSize) :
    setNodeMarkup (sizeSum l) a (l ++ n :: r) = some (l ++ { n with attrs := a } :: r) := by
  unfold setNodeMarkup
  rw [splitAtPos_append l (n :: r) hl]
  rfl

lemma nodeAt_append (l : Doc) (n : Node) (r : Doc) (hl : ∀ m ∈ l, 0 < m.nodeSize) :
    nodeAt (sizeSum l) (l ++ n :: r) = some n := by
  unfold nodeAt
  rw [splitAtPos_append l (n :: r) hl]
  rfl

lemma dropSize_zero (r : Doc) : dropSize 0 r = some r := by
  cases r <;> rfl

lemma dropSize_exact (n : Node) (r : Doc) (hn : 0 < n.nodeSize) :
    dropSize n.nodeSize (n :: r) = some r := by
  unfold dropSize
  rw [if_neg (by omega), if_neg (by omega), Nat.sub_self]
  exact dropSize_zero r

lemma deleteRange_append (l : Doc) (n : Node) (r : Doc) (sz : ℕ)
    (hl : ∀ m ∈ l, 0 < m.nodeSize) (hn : 0 < n.nodeSize) (hsz : sz = n.nodeSize) :
    deleteRange (sizeSum l) (sizeSum l + sz) (l ++ n :: r) = some (l ++ r) := by
  subst hsz
  unfold deleteRange
  rw [splitAtPos_append l (n :: r) hl]
  dsimp only [Option.bind]
  have harg : sizeSum l + n.nodeSize - sizeSum l = n.nodeSize := by omega
  rw [harg, dropSize_exact n r hn]
  rfl

lemma insertAt_append (l : Doc) (m : Node) (r : Doc) (hl : ∀ x ∈ l, 0 < x.nodeSize) :
    insertAt (sizeSum l) m (l ++ r) = some (l ++ m :: r) := by
  unfold insertAt
  rw [splitAtPos_append l r hl]
  rfl

/-- Claim C3: for positive resolved aspect ratios, the planner computes
the target width as round of the ratio share of 98 and gives the
remainder of 98 to the dragged block; for ratios 2 and 1 the results
are 65 and 33, and they are written into the width attributes as
percentage strings. -/
theorem merge_width_formula (rt rd : ℚ) (h₁ : 0 < rt) (h₂ : 0 < rd) :
    targetWidthPercent rt rd = round (rt / (rt + rd) * 98)
    ∧ draggedWidthPercent rt rd = 98 - targetWidthPercent rt rd
    ∧ targetWidthPercent 2 1 = 65
    ∧ draggedWidthPercent 2 1 = 33
    ∧ mergeImages "image" "d" "t" 2 1 [tNode, dNode] =
        [{ tNode with attrs := { tNode.attrs with width := "65%" } },
         { dNode with attrs := { dNode.attrs with width := "33%" } }] := by
  have h65 : targetWidthPercent 2 1 = 65 := by
    unfold targetWidthPercent
    norm_num [round_eq]
  have h33 : draggedWidthPercent 2 1 = 33 := by
    unfold draggedWidthPercent
    rw [h65]
    norm_num
  refine ⟨rfl, rfl, h65, h33, ?_⟩
  unfold mergeImages
  rw [show findById "image" "d" [tNode, dNode] = some (1, dNode) from rfl]
  rw [show findById "image" "t" [tNode, dNode] = some (0, tNode) from rfl]
  dsimp only []
  rw [show nodeAt 0 [tNode, dNode] = some tNode from rfl]
  unfold mergeTransaction
  rw [h65, h33]
  rfl

theorem merge_width_formula_witness : targetWidthPercent 2 1 = 65 :=
  (merge_width_formula 2 1 (by norm_num) (by norm_num)).2.2.1

/-- Claim C8: the merge aborts with the document untouched when the
dragged node is not found by id, when the target position is not
available, or when the target node is missing; and when the assembled
transaction itself cannot be applied, nothing is dispatched, so no
partial mutation is ever observable. -/
theorem merge_aborts_atomically (k did tid : String) (rt rd : ℚ) (d : Doc) :
    (findById k did d = Option.none → mergeImages k did tid rt rd d = d)
    ∧ (findById k tid d = Option.none → mergeImages k did tid rt rd d = d)
    ∧ (∀ dp dn tp tn₀, findById k did d = some (dp, dn) →
        findById k tid d = some (tp, tn₀) → nodeAt tp d = Option.none →
        mergeImages k did tid rt rd d = d)
    ∧ (∀ dp dn tp tn₀ tnode, findById k did d = some (dp, dn) →
        findById k tid d = some (tp, tn₀) → nodeAt tp d = some tnode →
        mergeTransaction dp dn tp tnode rt rd d = Option.none →
        mergeImages k did tid rt rd d = d) := by
  refine ⟨?_, ?_, ?_, ?_⟩
  · intro h
    unfold mergeImages
    rw [h]
  · intro h
    unfold mergeImages
    rcases hf : findById k did d with _ | pr
    · rfl
    · rw [h]
  · intro dp dn tp tn₀ hfd hft hna
    unfold mergeImages
    rw [hfd, hft]
    dsimp only []
    rw [hna]
  · intro dp dn tp tn₀ tnode hfd hft hna htr
    unfold mergeImages
    rw [hfd, hft]
    dsimp only []
    rw [hna]
    dsimp only []
    rw [htr]

theorem merge_aborts_atomically_witness :
    mergeImages "image" "d" "t" 2 1 [] = [] :=
  (merge_aborts_atomically "image" "d" "t" 2 1 []).1 rfl

end Merge

namespace Merge

/-- Claim C7: in a document containing both blocks with distinct ids
(and no earlier nodes shadowing either id), a successful merge places
the dragged block immediately after the target block, with content,
marks and size untouched and only the width attribute renewed; this
holds both when the dragged block precedes the target and when it
follows it, so the insert-position arithmetic compensates correctly for
the deletion shift. -/
theorem merge_moves_dragged_after_target (k did tid : String) (rt rd : ℚ)
    (A B C : List Node) (dn tn : Node)
    (hA : ∀ n ∈ A, 0 < n.nodeSize) (hB : ∀ n ∈ B, 0 < n.nodeSize)
    (hdn : 0 < dn.nodeSize) (htn : 0 < tn.nodeSize)
    (hdk : dn.kind = k) (hdid : dn.attrs.id = did)
    (htk : tn.kind = k) (htid : tn.attrs.id = tid)
    (hne : did ≠ tid)
    (hAd : ∀ n ∈ A, ¬(n.kind = k ∧ n.attrs.id = did))
    (hAt : ∀ n ∈ A, ¬(n.kind = k ∧ n.attrs.id = tid))
    (hBd : ∀ n ∈ B, ¬(n.kind = k ∧ n.attrs.id = did))
    (hBt : ∀ n ∈ B, ¬(n.kind = k ∧ n.attrs.id = tid)) :
    mergeImages k did tid rt rd (A ++ dn :: B ++ tn :: C) =
      A ++ B ++
        { tn with attrs := withWidth tn.attrs (targetWidthPercent rt rd) } ::
        { dn with attrs := withWidth dn.attrs (draggedWidthPercent rt rd) } :: C
    ∧ mergeImages k did tid rt rd (A ++ tn :: B ++ dn :: C) =
      A ++
        { tn with attrs := withWidth tn.attrs (targetWidthPercent rt rd) } ::
        { dn with attrs := withWidth dn.attrs (draggedWidthPercent rt rd) } :: (B ++ C) := by
  constructor
  · -- dragged block before target block
    have hAdnB_pos : ∀ m ∈ A ++ dn :: B, 0 < m.nodeSize := by
      intro m hm
      rcases List.mem_append.1 hm with h | h
      · exact hA m h
      · rcases List.mem_cons.1 h with h | h
        · subst h; exact hdn
        · exact hB m h
    have hshape1 : (A ++ dn :: B) ++ tn :: C = A ++ dn :: (B ++ tn :: C) := by simp
    have hfd : findById k did (A ++ dn :: (B ++ tn :: C)) = some (sizeSum A, dn) :=
      findById_prefix k did A dn (B ++ tn :: C) hAd hdk hdid
    have hAdnB_not : ∀ n ∈ A ++ dn :: B, ¬(n.kind = k ∧ n.attrs.id = tid) := by
      intro n hn
      rcases List.mem_append.1 hn with h | h
      · exact hAt n h
      · rcases List.mem_cons.1 h with h | h
        · subst h
          rintro ⟨-, hid⟩
          exact hne (hdid.symm.trans hid)
        · exact hBt n h
    have hft : findById k tid (A ++ dn :: (B ++ tn :: C)) =
        some (sizeSum (A ++ dn :: B), tn) := by
      have h := findById_prefix k tid (A ++ dn :: B) tn C hAdnB_not htk htid
      rwa [hshape1] at h
    have hna : nodeAt (sizeSum (A ++ dn :: B)) (A ++ dn :: (B ++ tn :: C)) = some tn := by
      have h := nodeAt_append (A ++ dn :: B) tn C hAdnB_pos
      rwa [hshape1] at h
    unfold mergeImages
    rw [hshape1, hfd, hft]
    dsimp only []
    rw [hna]
    dsimp only []
    unfold mergeTransaction
    dsimp only []
    have hm1 : setNodeMarkup (sizeSum (A ++ dn :: B))
        (withWidth tn.attrs (targetWidthPercent rt rd))
        (A ++ dn :: (B ++ tn :: C)) =
        some ((A ++ dn :: B) ++
          { tn with attrs := withWidth tn.attrs (targetWidthPercent rt rd) } :: C) := by
      have h := setNodeMarkup_append (A ++ dn :: B) tn C
        (withWidth tn.attrs (targetWidthPercent rt rd)) hAdnB_pos
      rwa [hshape1] at h
    rw [hm1]
    dsimp only [Option.bind]
    rw [show (A ++ dn :: B) ++
        { tn with attrs := withWidth tn.attrs (targetWidthPercent rt rd) } :: C =
        A ++ dn :: (B ++
          { tn with attrs := withWidth tn.attrs (targetWidthPercent rt rd) } :: C) from by simp]
    rw [setNodeMarkup_append A dn
      (B ++ { tn with attrs := withWidth tn.attrs (targetWidthPercent rt rd) } :: C)
      (withWidth dn.attrs (draggedWidthPercent rt rd)) hA]
    dsimp only [Option.bind]
    rw [deleteRange_append A
      { dn with attrs := withWidth dn.attrs (draggedWidthPercent rt rd) }
      (B ++ { tn with attrs := withWidth tn.attrs (targetWidthPercent rt rd) } :: C)
      dn.nodeSize hA hdn rfl]
    dsimp only [Option.bind]
    rw [if_pos (show sizeSum A < sizeSum (A ++ dn :: B) from by
      rw [sizeSum_append, sizeSum_cons]; omega)]
    rw [show sizeSum (A ++ dn :: B) - dn.nodeSize + tn.nodeSize =
        sizeSum (A ++ B ++
          [{ tn with attrs := withWidth tn.attrs (targetWidthPercent rt rd) }]) from by
      simp [sizeSum_append, sizeSum_cons, sizeSum]
      omega]
    rw [show A ++ (B ++
        { tn with attrs := withWidth tn.attrs (targetWidthPercent rt rd) } :: C) =
        (A ++ B ++
          [{ tn with attrs := withWidth tn.attrs (targetWidthPercent rt rd) }]) ++ C from by simp]
    have hABt_pos : ∀ m ∈ A ++ B ++
        [{ tn with attrs := withWidth tn.attrs (targetWidthPercent rt rd) }],
        0 < m.nodeSize := by
      intro m hm
      rcases List.mem_append.1 hm with h | h
      · rcases List.mem_append.1 h with h₂ | h₂
        · exact hA m h₂
        · exact hB m h₂
      · rcases List.mem_cons.1 h with h₂ | h₂
        · subst h₂; exact htn
        · simp at h₂
    have hins := insertAt_append (A ++ B ++
        [{ tn with attrs := withWidth tn.attrs (targetWidthPercent rt rd) }])
      { dn with attrs := withWidth dn.attrs (draggedWidthPercent rt rd) } C hABt_pos
    rw [hins]
    dsimp only []
    simp

  · -- target block before dragged block
    have hAtnB_pos : ∀ m ∈ A ++ tn :: B, 0 < m.nodeSize := by
      intro m hm
      rcases List.mem_append.1 hm with h | h
      · exact hA m h
      · rcases List.mem_cons.1 h with h | h
        · subst h; exact htn
        · exact hB m h
    have hshape1 : (A ++ tn :: B) ++ dn :: C = A ++ tn :: (B ++ dn :: C) := by simp
    have hAtnB_not : ∀ n ∈ A ++ tn :: B, ¬(n.kind = k ∧ n.attrs.id = did) := by
      intro n hn
      rcases List.mem_append.1 hn with h | h
      · exact hAd n h
      · rcases List.mem_cons.1 h with h | h
        · subst h
          rintro ⟨-, hid⟩
          exact hne (htid.symm.trans hid).symm
        · exact hBd n h
    have hfd : findById k did (A ++ tn :: (B ++ dn :: C)) =
        some (sizeSum (A ++ tn :: B), dn) := by
      have h := findById_prefix k did (A ++ tn :: B) dn C hAtnB_not hdk hdid
      rwa [hshape1] at h
    have hft : findById k tid (A ++ tn :: (B ++ dn :: C)) = some (sizeSum A, tn) :=
      findById_prefix k tid A tn (B ++ dn :: C) hAt htk htid
    have hna : nodeAt (sizeSum A) (A ++ tn :: (B ++ dn :: C)) = some tn :=
      nodeAt_append A tn (B ++ dn :: C) hA
    unfold mergeImages
    rw [hshape1, hfd, hft]
    dsimp only []
    rw [hna]
    dsimp only []
    unfold mergeTransaction
    dsimp only []
    rw [setNodeMarkup_append A tn (B ++ dn :: C)
      (withWidth tn.attrs (targetWidthPercent rt rd)) hA]
    dsimp only [Option.bind]
    rw [show A ++
        { tn with attrs := withWidth tn.attrs (targetWidthPercent rt rd) } :: (B ++ dn :: C) =
        (A ++ { tn with attrs := withWidth tn.attrs (targetWidthPercent rt rd) } :: B) ++ dn :: C
        from by simp]
    have hAtnB2_pos : ∀ m ∈ A ++
        { tn with attrs := withWidth tn.attrs (targetWidthPercent rt rd) } :: B,
        0 < m.nodeSize := by
      intro m hm
      rcases List.mem_append.1 hm with h | h
      · exact hA m h
      · rcases List.mem_cons.1 h with h | h
        · subst h; exact htn
        · exact hB m h
    have hsz2 : sizeSum (A ++
        { tn with attrs := withWidth tn.attrs (targetWidthPercent rt rd) } :: B) =
        sizeSum (A ++ tn :: B) := by
      simp [sizeSum_append, sizeSum_cons]
    have hm2 := setNodeMarkup_append (A ++
        { tn with attrs := withWidth tn.attrs (targetWidthPercent rt rd) } :: B) dn C
      (withWidth dn.attrs (draggedWidthPercent rt rd)) hAtnB2_pos
    rw [hsz2] at hm2
    rw [hm2]
    dsimp only [Option.bind]
    have hdel := deleteRange_append (A ++
        { tn with attrs := withWidth tn.attrs (targetWidthPercent rt rd) } :: B)
      { dn with attrs := withWidth dn.attrs (draggedWidthPercent rt rd) } C
      dn.nodeSize hAtnB2_pos hdn rfl
    rw [hsz2] at hdel
    rw [hdel]
    dsimp only [Option.bind]
    rw [if_neg (show ¬ sizeSum (A ++ tn :: B) < sizeSum A from by
      rw [sizeSum_append]; omega)]
    rw [show sizeSum A + tn.nodeSize =
        sizeSum (A ++
          [{ tn with attrs := withWidth tn.attrs (targetWidthPercent rt rd) }]) from by
      simp [sizeSum_append, sizeSum]]
    rw [show (A ++
        { tn with attrs := withWidth tn.attrs (targetWidthPercent rt rd) } :: B) ++ C =
        (A ++
          [{ tn with attrs := withWidth tn.attrs (targetWidthPercent rt rd) }]) ++ (B ++ C)
        from by simp]
    have hAt2_pos : ∀ m ∈ A ++
        [{ tn with attrs := withWidth tn.attrs (targetWidthPercent rt rd) }],
        0 < m.nodeSize := by
      intro m hm
      rcases List.mem_append.1 hm with h | h
      · exact hA m h
      · rcases List.mem_cons.1 h with h₂ | h₂
        · subst h₂; exact htn
        · simp at h₂
    have hins := insertAt_append (A ++
        [{ tn with attrs := withWidth tn.attrs (targetWidthPercent rt rd) }])
      { dn with attrs := withWidth dn.attrs (draggedWidthPercent rt rd) } (B ++ C) hAt2_pos
    rw [hins]
    dsimp only []
    simp

theorem merge_moves_dragged_after_target_witness :
    mergeImages "image" "d" "t" 2 1 ([] ++ dNode :: [] ++ tNode :: []) =
      [] ++ [] ++
        { tNode with attrs := withWidth tNode.attrs (targetWidthPercent 2 1) } ::
        { dNode with attrs := withWidth dNode.attrs (draggedWidthPercent 2 1) } :: [] :=
  (merge_moves_dragged_after_target "image" "d" "t" 2 1 [] [] [] dNode tNode
    (by decide) (by decide) (by decide) (by decide) (by decide) (by decide)
    (by decide) (by decide) (by decide) (by decide) (by decide) (by decide)
    (by decide)).1

end Merge

namespace Raster

lemma fillBlock_pix_out (s : Bitmap) (mX mY : ℤ) (c : Pix) (px py : ℤ)
    (h : ¬ inBlock (mX, mY) px py) :
    (fillBlock s mX mY c).pix px py = s.pix px py := by
  unfold fillBlock
  dsimp only []
  rw [if_neg]
  intro hcond
  exact h ⟨hcond.1, hcond.2.1, hcond.2.2.1, hcond.2.2.2.1⟩

lemma fillBlock_pix_in (s : Bitmap) (mX mY : ℤ) (c : Pix) (px py : ℤ)
    (hin : inBlock (mX, mY) px py)
    (h₁ : 0 ≤ px) (h₂ : px < (s.w : ℤ)) (h₃ : 0 ≤ py) (h₄ : py < (s.h : ℤ)) :
    (fillBlock s mX mY c).pix px py = c := by
  obtain ⟨g₁, g₂, g₃, g₄⟩ := hin
  unfold fillBlock
  dsimp only []
  rw [if_pos ⟨g₁, g₂, g₃, g₄, h₁, h₂, h₃, h₄⟩]

lemma readPix_congr (s₁ s₂ : Bitmap) (hw : s₁.w = s₂.w) (hh : s₁.h = s₂.h) (x y : ℤ)
    (hp : 0 ≤ x → x < (s₂.w : ℤ) → 0 ≤ y → y < (s₂.h : ℤ) → s₁.pix x y = s₂.pix x y) :
    readPix s₁ x y = readPix s₂ x y := by
  unfold readPix
  rw [hw, hh]
  split
  · rename_i hcond
    exact hp hcond.1 hcond.2.1 hcond.2.2.1 hcond.2.2.2
  · rfl

lemma avgBlock_congr (s₁ s₂ : Bitmap) (mX mY : ℤ) (hw : s₁.w = s₂.w) (hh : s₁.h = s₂.h)
    (hp : ∀ px py, inBlock (mX, mY) px py → s₁.pix px py = s₂.pix px py) :
    avgBlock s₁ mX mY = avgBlock s₂ mX mY := by
  have hinner : ∀ j ∈ List.range mosaicSize,
      (List.range mosaicSize).map (fun i : ℕ => readPix s₁ (mX + (i : ℤ)) (mY + (j : ℤ))) =
      (List.range mosaicSize).map (fun i : ℕ => readPix s₂ (mX + (i : ℤ)) (mY + (j : ℤ))) := by
    intro j hj
    apply List.map_congr_left
    intro i hi
    apply readPix_congr s₁ s₂ hw hh
    intro _ _ _ _
    apply hp
    have hi' : (i : ℤ) < (mosaicSize : ℤ) := by
      exact_mod_cast List.mem_range.1 hi
    have hj' : (j : ℤ) < (mosaicSize : ℤ) := by
      exact_mod_cast List.mem_range.1 hj
    unfold inBlock
    dsimp only []
    omega
  have hsamples : (List.range mosaicSize).flatMap
      (fun j : ℕ => (List.range mosaicSize).map
        (fun i : ℕ => readPix s₁ (mX + (i : ℤ)) (mY + (j : ℤ)))) =
      (List.range mosaicSize).flatMap
      (fun j : ℕ => (List.range mosaicSize).map
        (fun i : ℕ => readPix s₂ (mX + (i : ℤ)) (mY + (j : ℤ)))) :=
    List.flatMap_congr hinner
  unfold avgBlock
  rw [hsamples]

lemma grid_disjoint_x {x yc yc' : ℤ} {i i' : ℕ} (hlt : i < i') (px py : ℤ)
    (hin : inBlock (x + ((i * mosaicSize : ℕ) : ℤ), yc) px py) :
    ¬ inBlock (x + ((i' * mosaicSize : ℕ) : ℤ), yc') px py := by
  intro hin'
  unfold inBlock at hin hin'
  dsimp only [] at hin hin'
  simp only [mosaicSize] at hin hin'
  push_cast at hin hin'
  omega

lemma grid_disjoint_y {xc xc' y : ℤ} {j j' : ℕ} (hlt : j < j') (px py : ℤ)
    (hin : inBlock (xc, y + ((j * mosaicSize : ℕ) : ℤ)) px py) :
    ¬ inBlock (xc', y + ((j' * mosaicSize : ℕ) : ℤ)) px py := by
  intro hin'
  unfold inBlock at hin hin'
  dsimp only [] at hin hin'
  simp only [mosaicSize] at hin hin'
  push_cast at hin hin'
  omega

lemma blockAnchors_disjoint (x y : ℤ) (w h : ℕ) :
    (blockAnchors x y w h).Pairwise
      (fun a b => ∀ px py, inBlock a px py → ¬ inBlock b px py) := by
  unfold blockAnchors
  rw [List.pairwise_flatMap]
  constructor
  · intro j _
    rw [List.pairwise_map]
    refine (List.pairwise_lt_range _).imp ?_
    intro i i' hlt px py hin
    exact grid_disjoint_x hlt px py hin
  · refine (List.pairwise_lt_range _).imp ?_
    intro j j' hlt a ha b hb px py hin
    rw [List.mem_map] at ha hb
    obtain ⟨i, _, rfl⟩ := ha
    obtain ⟨i', _, rfl⟩ := hb
    exact grid_disjoint_y hlt px py hin

lemma mosaicFold_spec (surf : Bitmap) (l : List (ℤ × ℤ)) :
    ∀ s : Bitmap, s.w = surf.w → s.h = surf.h →
    (∀ a ∈ l, ∀ px py, inBlock a px py → s.pix px py = surf.pix px py) →
    l.Pairwise (fun a b => ∀ px py, inBlock a px py → ¬ inBlock b px py) →
    ((l.foldl mosaicStep s).w = surf.w ∧ (l.foldl mosaicStep s).h = surf.h)
    ∧ (∀ px py, (∀ a ∈ l, ¬ inBlock a px py) →
        (l.foldl mosaicStep s).pix px py = s.pix px py)
    ∧ (∀ a ∈ l, ∀ px py, inBlock a px py →
        0 ≤ px → px < (surf.w : ℤ) → 0 ≤ py → py < (surf.h : ℤ) →
        (l.foldl mosaicStep s).pix px py = avgBlock surf a.1 a.2) := by
  induction l with
  | nil =>
    intro s hw hh _ _
    exact ⟨⟨hw, hh⟩, fun px py _ => rfl, fun a ha => (List.not_mem_nil a ha).elim⟩
  | cons a l ih =>
    intro s hw hh hagree hpair
    rw [List.pairwise_cons] at hpair
    obtain ⟨hhead, htail⟩ := hpair
    have havg : avgBlock s a.1 a.2 = avgBlock surf a.1 a.2 := by
      apply avgBlock_congr s surf a.1 a.2 hw hh
      intro px py hin
      exact hagree a (by simp) px py hin
    have hstep : (l.foldl mosaicStep (mosaicStep s a)) = ((a :: l).foldl mosaicStep s) := rfl
    have hagree2 : ∀ b ∈ l, ∀ px py, inBlock b px py →
        (mosaicStep s a).pix px py = surf.pix px py := by
      intro b hb px py hbin
      have hna : ¬ inBlock (a.1, a.2) px py := by
        intro hain
        exact hhead b hb px py hain hbin
      unfold mosaicStep
      rw [fillBlock_pix_out s a.1 a.2 _ px py hna]
      exact hagree b (by simp [hb]) px py hbin
    have hIH := ih (mosaicStep s a) hw hh hagree2 htail
    refine ⟨hIH.1, ?_, ?_⟩
    · intro px py hnone
      rw [← hstep]
      rw [hIH.2.1 px py (fun b hb => hnone b (by simp [hb]))]
      unfold mosaicStep
      rw [fillBlock_pix_out s a.1 a.2 _ px py (hnone a (by simp))]
    · intro b hb px py hbin h₁ h₂ h₃ h₄
      rw [← hstep]
      rcases List.mem_cons.1 hb with hba | hbl
      · subst hba
        have hnone : ∀ c ∈ l, ¬ inBlock c px py := fun c hc => hhead c hc px py hbin
        rw [hIH.2.1 px py hnone]
        unfold mosaicStep
        rw [fillBlock_pix_in s b.1 b.2 _ px py hbin h₁ (by rw [hw]; exact h₂) h₃
          (by rw [hh]; exact h₄)]
        exact havg
      · exact hIH.2.2 b hbl px py hbin h₁ h₂ h₃ h₄

/-- Claim C6 (amended): rendering a mosaic action tiles the
axis-aligned bounding rectangle of its two points with mosaicSize
blocks anchored at the min corner, one anchor per loop step; each such
block is filled (clipped to the surface) with the per-channel floored
mean over all samples of the full block as read from the surface before
the mosaic (samples outside the surface read as black and are counted),
so pixels outside the selected rectangle but inside an edge block are
both averaged in and overwritten; pixels in no block keep their value. -/
theorem mosaic_block_render (surf : Bitmap) (p₀ p₁ : Point) :
    (∀ px py, (∀ a ∈ mosaicAnchors p₀ p₁, ¬ inBlock a px py) →
      (applyMosaic surf [p₀, p₁]).pix px py = surf.pix px py)
    ∧ (∀ a ∈ mosaicAnchors p₀ p₁, ∀ px py, inBlock a px py →
        0 ≤ px → px < (surf.w : ℤ) → 0 ≤ py → py < (surf.h : ℤ) →
        (applyMosaic surf [p₀, p₁]).pix px py = avgBlock surf a.1 a.2) := by
  have hdisj : (mosaicAnchors p₀ p₁).Pairwise
      (fun a b => ∀ px py, inBlock a px py → ¬ inBlock b px py) := by
    unfold mosaicAnchors
    exact blockAnchors_disjoint _ _ _ _
  have hm := mosaicFold_spec surf (mosaicAnchors p₀ p₁) surf rfl rfl
    (fun _ _ _ _ _ => rfl) hdisj
  exact ⟨hm.2.1, hm.2.2⟩

theorem mosaic_block_render_witness :
    (applyMosaic base10 [⟨0, 0⟩, ⟨5, 5⟩]).pix 3 3 = avgBlock base10 0 0 :=
  (mosaic_block_render base10 ⟨0, 0⟩ ⟨5, 5⟩).2 (0, 0) (by decide) 3 3
    (by decide) (by decide) (by decide) (by decide) (by decide)

/-- Claim C6 as stated is false on the code: for the mosaic rectangle
from (0,0) to (5,5) on a ten by ten surface, the pixel (7,7) lies
outside the rectangle, yet the render overwrites it, because the only
block of the loop spans the full mosaicSize square. -/
theorem mosaic_overwrites_outside_rect_cex :
    (applyMosaic base10 [⟨0, 0⟩, ⟨5, 5⟩]).pix 7 7 ≠ base10.pix 7 7 := by decide

end Raster
